import Mathlib

/-!
# Verification of the pj_assistant page-state resolution and interaction engine

A shallow embedding, in Lean, of the core logic of `src/pj_assistant/assistant.py`
and `src/pj_assistant/config.py`: scope resolution across the top-level document
and embedded frames, table location fallback chains, question prefilling, teacher
tab collection, the click retry ladder, pagination termination, configuration
validation, randomized delays, the modal-closed wait loop, and the evaluation
flow trace.

Modelling conventions:
- A live DOM query (`locator(sel).count()`, `get_attribute`, `bounding_box`,
  `inner_text`) is modelled as snapshot data carried by the scope/element
  structure; a query that raises is modelled by an explicit `exn` / `none` value.
- Pixel coordinates are modelled as rationals: only their ordering matters to
  the code under verification.
- Randomness (`random.randint`, `random.choice`) is modelled by an explicit
  extra argument ranging over all possible draws.
-/

namespace PjAssistant

/-- Result of a Playwright `locator(sel).count()` call as observed by the
assistant: either the element count, or an exception raised by the query
(the code catches these and treats the scope as non-matching). -/
inductive QueryResult where
  | count : Nat → QueryResult
  | exn : QueryResult
  deriving DecidableEq, Repr

/-- One candidate document scope (the page itself or one frame), carrying the
snapshot results of the two `count()` queries `_resolve_scope` can issue
against it: `primary` is the count for the configured `cfg.selectors.table`
selector, `fallbackQ` the count for the fixed fallback selector
`'table:has(button:has-text("评价"))'` (the same literal string is used by
all three fallback loops in the source). -/
structure ScopeQ where
  name : String
  primary : QueryResult
  fallbackQ : QueryResult
  deriving DecidableEq, Repr

/-- One entry of `page.frames`: the frame's scope data plus whether the frame
is `page.main_frame` (which `_resolve_scope` skips when building the scope
list). -/
structure FrameQ where
  isMain : Bool
  scope : ScopeQ
  deriving DecidableEq, Repr

/-- The page as `_resolve_scope` sees it: the top-level page scope and the
`page.frames` list in document order. -/
structure PageQ where
  pageScope : ScopeQ
  frames : List FrameQ
  deriving DecidableEq, Repr

/-- The scope enumeration built at the top of `_resolve_scope`:
`scopes = [("page", page)]` followed by every frame of `page.frames` except
`page.main_frame`, in document order. -/
def scopesOf (p : PageQ) : List ScopeQ :=
  p.pageScope :: (p.frames.filter (fun f => !f.isMain)).map FrameQ.scope

/-- Truthiness of `scope.locator(sel).count()` inside the `try` block of
`_resolve_scope`: a nonzero count matches, a zero count does not, and an
exception falls into the `except Exception: continue` arm. -/
def qHit (q : QueryResult) : Bool :=
  match q with
  | .count n => decide (0 < n)
  | .exn => false

/-- Model of `_resolve_scope` (assistant.py lines 28-73): scan the scope list for the
configured table selector; on failure, run the fallback-selector scan (the
source repeats the same fallback loop three times with the identical selector
string); finally fall back to the page itself. -/
def resolveScope (p : PageQ) : ScopeQ :=
  let scopes := scopesOf p
  match scopes.find? (fun s => qHit s.primary) with
  | some s => s
  | none =>
    match scopes.find? (fun s => qHit s.fallbackQ) with
    | some s => s
    | none =>
      match scopes.find? (fun s => qHit s.fallbackQ) with
      | some s => s
      | none =>
        match scopes.find? (fun s => qHit s.fallbackQ) with
        | some s => s
        | none => p.pageScope

/-- Snapshot of the `count()` queries `_find_table` can issue against one
scope: `primaryCount` for `cfg.selectors.table`, `pendingCount` for
`'button:has-text("评价"), a:has-text("评价")'`, `keywordCount` for
`'table:has-text("评价")'`. `_find_table` wraps none of its queries in
`try`, so counts are plain numbers here. -/
structure TableScope where
  primaryCount : Nat
  pendingCount : Nat
  keywordCount : Nat
  deriving DecidableEq, Repr

/-- The value `_find_table` returns on a hit: `primaryFirst` is
`table.first` for the primary selector; `ancestorOfPending` is
`pending.first.locator("xpath=ancestor::table[1]")`, the nearest enclosing
ancestor table of the first 评价 button/link; `keywordTableFirst` is
`fallback.first`, the first table containing the rating keyword as text. -/
inductive TableHandle where
  | primaryFirst
  | ancestorOfPending
  | keywordTableFirst
  deriving DecidableEq, Repr

/-- Model of `_find_table` (assistant.py lines 111-143), with its duplicated fallback
branches kept in source order: primary selector, pending 评价 affordance and
ancestor walk, keyword table, then the three repeated copies of the same
queries, then `None`. -/
def findTable (s : TableScope) : Option TableHandle :=
  if 0 < s.primaryCount then some .primaryFirst
  else if 0 < s.pendingCount then some .ancestorOfPending
  else if 0 < s.keywordCount then some .keywordTableFirst
  else if 0 < s.pendingCount then some .ancestorOfPending
  else if 0 < s.pendingCount then some .ancestorOfPending
  else if 0 < s.keywordCount then some .keywordTableFirst
  else if 0 < s.keywordCount then some .keywordTableFirst
  else none

/-- Auxiliary lemma: `List.find?` returns the element at the least satisfying index. -/
theorem find?_eq_some_of_first {α} (l : List α) (p : α → Bool) (i : Nat) (x : α)
    (hx : l[i]? = some x) (hpx : p x = true)
    (hmin : ∀ j y, j < i → l[j]? = some y → p y = false) :
    l.find? p = some x := by
  rw [List.find?_eq_some_iff_getElem]
  rw [List.getElem?_eq_some] at hx
  obtain ⟨hi, hgx⟩ := hx
  refine ⟨hpx, i, hi, hgx, ?_⟩
  intro j hj
  have hj' : j < l.length := Nat.lt_trans hj hi
  have := hmin j (l.get ⟨j, hj'⟩) hj (by simp [List.getElem?_eq_some, hj'])
  simpa [List.get_eq_getElem] using this

/-- C1: `_resolve_scope` enumerates the top-level document first and then every
embedded sub-document in document order (the main frame excluded), returns the
first scope whose match count for the configured table selector is nonzero,
retries every scope with the fixed fallback selector if none matched, and
returns the top-level page as a last resort — it always returns a scope (a
total function here) and never raises. -/
theorem resolveScope_resolution_order (p : PageQ) :
    scopesOf p = p.pageScope :: (p.frames.filter (fun f => !f.isMain)).map FrameQ.scope
    ∧ (∀ (i : Nat) (s : ScopeQ), (scopesOf p)[i]? = some s → qHit s.primary = true →
        (∀ (j : Nat) (t : ScopeQ), j < i → (scopesOf p)[j]? = some t → qHit t.primary = false) →
        resolveScope p = s)
    ∧ ((∀ s ∈ scopesOf p, qHit s.primary = false) →
        ∀ (i : Nat) (s : ScopeQ), (scopesOf p)[i]? = some s → qHit s.fallbackQ = true →
        (∀ (j : Nat) (t : ScopeQ), j < i → (scopesOf p)[j]? = some t → qHit t.fallbackQ = false) →
        resolveScope p = s)
    ∧ ((∀ s ∈ scopesOf p, qHit s.primary = false ∧ qHit s.fallbackQ = false) →
        resolveScope p = p.pageScope) := by
  refine ⟨rfl, ?_, ?_, ?_⟩
  · intro i s hs hps hmin
    have hfind : (scopesOf p).find? (fun s => qHit s.primary) = some s :=
      find?_eq_some_of_first _ _ i s hs hps hmin
    simp [resolveScope, hfind]
  · intro hnone i s hs hps hmin
    have hfind1 : (scopesOf p).find? (fun s => qHit s.primary) = none :=
      List.find?_eq_none.mpr (by simpa using hnone)
    have hfind2 : (scopesOf p).find? (fun s => qHit s.fallbackQ) = some s :=
      find?_eq_some_of_first _ _ i s hs hps hmin
    simp [resolveScope, hfind1, hfind2]
  · intro hnone
    have hfind1 : (scopesOf p).find? (fun s => qHit s.primary) = none :=
      List.find?_eq_none.mpr (fun x hx => by simp [(hnone x hx).1])
    have hfind2 : (scopesOf p).find? (fun s => qHit s.fallbackQ) = none :=
      List.find?_eq_none.mpr (fun x hx => by simp [(hnone x hx).2])
    simp [resolveScope, hfind1, hfind2]

/-- Witness for C1: on a concrete page whose main frame would match the primary
selector but is excluded from the scope list, and whose only non-main frame
matches only the fallback selector, `_resolve_scope` returns that frame's
scope via the fallback pass. -/
theorem resolveScope_resolution_order_witness :
    resolveScope
      { pageScope := { name := "page", primary := .exn, fallbackQ := .count 0 },
        frames :=
          [ { isMain := true,
              scope := { name := "main", primary := .count 5, fallbackQ := .count 5 } },
            { isMain := false,
              scope := { name := "frame", primary := .count 0, fallbackQ := .count 2 } } ] }
      = { name := "frame", primary := .count 0, fallbackQ := .count 2 } := by
  refine (resolveScope_resolution_order _).2.2.1 ?_ 1 _ (by decide) (by decide) ?_
  · decide
  · intro j t hj ht
    obtain rfl : j = 0 := by omega
    have h : { name := "page", primary := QueryResult.exn, fallbackQ := QueryResult.count 0 } = t := by
      simpa [scopesOf] using ht
    subst h
    decide

/-- C2: `_find_table` tries candidates with first-hit-wins semantics: the
configured primary selector (first match), then the 评价 button/link's nearest
enclosing ancestor table, then any table containing the rating keyword as
text, and returns `none` rather than raising when no candidate exists. -/
theorem findTable_resolution_order (s : TableScope) :
    (0 < s.primaryCount → findTable s = some .primaryFirst)
    ∧ (s.primaryCount = 0 → 0 < s.pendingCount → findTable s = some .ancestorOfPending)
    ∧ (s.primaryCount = 0 → s.pendingCount = 0 → 0 < s.keywordCount →
        findTable s = some .keywordTableFirst)
    ∧ (s.primaryCount = 0 → s.pendingCount = 0 → s.keywordCount = 0 →
        findTable s = none) := by
  refine ⟨?_, ?_, ?_, ?_⟩ <;> intros <;> simp_all [findTable]

/-- Witness for C2: a scope with no matching candidate at all yields `none`
(absence is a valid terminal condition, not an error). -/
theorem findTable_resolution_order_witness :
    findTable { primaryCount := 0, pendingCount := 0, keywordCount := 0 } = none :=
  (findTable_resolution_order _).2.2.2 rfl rfl rfl

/-- Playwright `:has-text("needle")` matching against an element's inner text,
modelled as substring containment (case-insensitivity of the real matcher is
immaterial for the Chinese labels involved here). -/
def hasText (needle hay : String) : Bool :=
  decide (needle.data <:+: hay.data)

/-- One question element, as the `_click_questions` closure inside
`_prefill_active_block` queries it: its `input[type=radio]` controls and its
`label` elements, both in document order (elements identified by text). -/
structure Question where
  radios : List String
  labels : List String
  deriving DecidableEq, Repr

/-- The interaction `_click_questions` performs on one question element:
`selectLabel` is `_safe_click` on a label, `checkRadio` is
`.check(force=True)` on a radio input, `skip` is the `radios.count() == 0`
arm (`skipped += 1; continue`). -/
inductive FillAction where
  | selectLabel : String → FillAction
  | checkRadio : String → FillAction
  | skip : FillAction
  deriving DecidableEq, Repr

/-- The per-question body of `_click_questions` (assistant.py lines 502-519):
skip questions with no radio; otherwise click the first label matching
`cfg.rating_text`, else the last label, else force-check the last radio. -/
def fillQuestion (ratingText : String) (q : Question) : FillAction :=
  if q.radios.isEmpty then .skip
  else
    match (q.labels.filter (fun l => hasText ratingText l)).head? with
    | some l => .selectLabel l
    | none =>
      match q.labels.getLast? with
      | some l => .selectLabel l
      | none =>
        -- radios is nonempty here, so this last branch always finds a radio
        match q.radios.getLast? with
        | some r => .checkRadio r
        | none => .skip

/-- The `_click_questions` loop over all question elements: the actions taken
in order, the `filled` counter, and the `skipped` counter. -/
def clickQuestions (ratingText : String) (qs : List Question) : List FillAction × Nat × Nat :=
  match qs with
  | [] => ([], 0, 0)
  | q :: rest =>
    let a := fillQuestion ratingText q
    let r := clickQuestions ratingText rest
    match a with
    | .skip => (a :: r.1, r.2.1, r.2.2 + 1)
    | _ => (a :: r.1, r.2.1 + 1, r.2.2)

/-- A question is skipped by `fillQuestion` exactly when it has no radio control. -/
theorem fillQuestion_skip_iff (rt : String) (q : Question) :
    (fillQuestion rt q = .skip) ↔ (q.radios.isEmpty = true) := by
  unfold fillQuestion
  by_cases hr : q.radios.isEmpty
  · simp [hr]
  · simp only [hr, Bool.false_eq_true, iff_false, if_neg]
    cases hh : (q.labels.filter (fun l => hasText rt l)).head? with
    | some l => simp
    | none =>
      cases hl : q.labels.getLast? with
      | some l => simp
      | none =>
        cases hrl : q.radios.getLast? with
        | some r => simp
        | none =>
          exfalso
          rw [List.getLast?_eq_none_iff] at hrl
          simp [hrl] at hr

/-- C3: for every question element with at least one radio option,
`_prefill_active_block` selects the first option whose label matches the
configured preferred rating text when one matches, and otherwise the last
option in document order (the last label, or the last radio when no label is
rendered); a question with no radio options is skipped and counted, not
treated as an error. -/
theorem prefill_question_selection (ratingText : String) (qs : List Question) :
    (∀ q ∈ qs, q.radios ≠ [] →
      (∀ l, (q.labels.filter (fun l => hasText ratingText l)).head? = some l →
          hasText ratingText l = true ∧ l ∈ q.labels ∧
          fillQuestion ratingText q = .selectLabel l)
      ∧ ((∀ l ∈ q.labels, hasText ratingText l = false) →
          (∀ l, q.labels.getLast? = some l → fillQuestion ratingText q = .selectLabel l)
          ∧ (q.labels = [] → ∀ r, q.radios.getLast? = some r →
              fillQuestion ratingText q = .checkRadio r)))
    ∧ (∀ q ∈ qs, q.radios = [] → fillQuestion ratingText q = .skip)
    ∧ (clickQuestions ratingText qs).1 = qs.map (fillQuestion ratingText)
    ∧ (clickQuestions ratingText qs).2.2 = (qs.filter (fun q => q.radios.isEmpty)).length
    ∧ (clickQuestions ratingText qs).2.1 = (qs.filter (fun q => !q.radios.isEmpty)).length := by
  refine ⟨?_, ?_, ?_, ?_, ?_⟩
  · intro q _ hr
    have hre : ¬ q.radios.isEmpty = true := by simpa [List.isEmpty_iff] using hr
    constructor
    · intro l hl
      cases hfl : q.labels.filter (fun l => hasText ratingText l) with
      | nil => rw [hfl] at hl; simp at hl
      | cons x xs =>
        rw [hfl] at hl
        simp only [List.head?_cons, Option.some.injEq] at hl
        subst hl
        have hmem : x ∈ q.labels.filter (fun l => hasText ratingText l) := by
          rw [hfl]; exact List.mem_cons_self _ _
        rw [List.mem_filter] at hmem
        refine ⟨hmem.2, hmem.1, ?_⟩
        simp [fillQuestion, hre, hfl]
    · intro hnone
      have hfl : q.labels.filter (fun l => hasText ratingText l) = [] := by
        rw [List.filter_eq_nil_iff]
        intro l hl
        simp [hnone l hl]
      constructor
      · intro l hl
        simp [fillQuestion, hre, hfl, hl]
      · intro hlab r hrl
        simp [fillQuestion, hre, hfl, hlab, hrl]
  · intro q _ hr
    rw [fillQuestion_skip_iff]
    simp [hr]
  · induction qs with
    | nil => rfl
    | cons q rest ih =>
      simp only [clickQuestions, List.map_cons]
      cases fillQuestion ratingText q <;> simp [ih]
  · induction qs with
    | nil => rfl
    | cons q rest ih =>
      simp only [clickQuestions]
      cases ha : fillQuestion ratingText q with
      | skip =>
        have := (fillQuestion_skip_iff ratingText q).mp ha
        simp [this, ih]
      | selectLabel l =>
        have : ¬ q.radios.isEmpty = true := by
          intro h
          rw [← fillQuestion_skip_iff ratingText q] at h
          rw [ha] at h
          exact FillAction.noConfusion h
        simp [this, ih]
      | checkRadio r =>
        have : ¬ q.radios.isEmpty = true := by
          intro h
          rw [← fillQuestion_skip_iff ratingText q] at h
          rw [ha] at h
          exact FillAction.noConfusion h
        simp [this, ih]
  · induction qs with
    | nil => rfl
    | cons q rest ih =>
      simp only [clickQuestions]
      cases ha : fillQuestion ratingText q with
      | skip =>
        have := (fillQuestion_skip_iff ratingText q).mp ha
        simp [this, ih]
      | selectLabel l =>
        have : ¬ q.radios.isEmpty = true := by
          intro h
          rw [← fillQuestion_skip_iff ratingText q] at h
          rw [ha] at h
          exact FillAction.noConfusion h
        simp [this, ih]
      | checkRadio r =>
        have : ¬ q.radios.isEmpty = true := by
          intro h
          rw [← fillQuestion_skip_iff ratingText q] at h
          rw [ha] at h
          exact FillAction.noConfusion h
        simp [this, ih]

/-- Witness for C3, with the default preferred rating label 很满意: a matching
label is clicked, a non-matching question gets its last label, and a question
without radios is skipped. -/
theorem prefill_question_selection_witness :
    fillQuestion "很满意" { radios := ["r1", "r2"], labels := ["很满意", "满意"] }
      = .selectLabel "很满意"
    ∧ fillQuestion "很满意" { radios := ["r3", "r4"], labels := ["一般", "不满意"] }
      = .selectLabel "不满意"
    ∧ fillQuestion "很满意" { radios := [], labels := ["很满意"] } = .skip := by
  refine ⟨?_, ?_, ?_⟩
  · exact (((prefill_question_selection "很满意"
      [{ radios := ["r1", "r2"], labels := ["很满意", "满意"] }]).1 _
      (List.mem_singleton.mpr rfl) (by decide)).1 "很满意" (by decide)).2.2
  · exact ((((prefill_question_selection "很满意"
      [{ radios := ["r3", "r4"], labels := ["一般", "不满意"] }]).1 _
      (List.mem_singleton.mpr rfl) (by decide)).2 (by decide)).1 "不满意" (by decide))
  · exact ((prefill_question_selection "很满意"
      [{ radios := [], labels := ["很满意"] }]).2.1 _
      (List.mem_singleton.mpr rfl) rfl)

/-- The `skip_text` set of `_collect_teacher_tabs`: action-button labels and
common rating-option labels that must never be treated as teacher tabs. -/
def skipTextSet : List String :=
  ["提交", "取消", "关闭", "保存", "很满意", "满意", "一般", "不满意", "很不满意"]

/-- One candidate element handle in `_collect_teacher_tabs`: its processed
inner text (`none` when `inner_text()` raised, which skips the candidate) and
its bounding box as an (x, y) pair (`none` when absent; coordinates are
rationals since only their order matters). -/
structure TabCand where
  text : Option String
  box : Option (Rat × Rat)
  deriving DecidableEq, Repr

/-- The `box and float(box.get("y", ...)) > top_y + 220` test: a candidate
with a bounding box lying more than 220px below the container top is dropped
as a likely question option; a candidate without a box is never dropped by
this test. -/
def boxTooLow (topY : Rat) (c : TabCand) : Bool :=
  match c.box with
  | some b => decide (topY + 220 < b.2)
  | none => false

/-- The recorded horizontal position: `float(box.get("x", 0.0)) if box else 0.0`. -/
def candX (c : TabCand) : Rat :=
  match c.box with
  | some b => b.1
  | none => 0

/-- The text filter of the selection loop:
`if not txt or txt in skip_text or txt in seen: continue`. -/
def textFiltered (seen : List String) (txt : String) : Bool :=
  txt == "" || skipTextSet.contains txt || seen.contains txt

/-- The selection loop of `_collect_teacher_tabs` (assistant.py lines
344-362) over indexed candidate handles, with the running `seen` set of
already-kept texts: skip on raised/empty text, on the skip set, on a
duplicate text, and on a too-low bounding box; otherwise record
`(x, text, handle)` and add the text to `seen`. -/
def selectTabs (topY : Rat) : List (Nat × TabCand) → List String → List (Rat × String × Nat)
  | [], _ => []
  | (i, c) :: rest, seen =>
    match c.text with
    | none => selectTabs topY rest seen
    | some txt =>
      if textFiltered seen txt then
        selectTabs topY rest seen
      else if boxTooLow topY c then
        selectTabs topY rest seen
      else
        (candX c, txt, i) :: selectTabs topY rest (txt :: seen)

/-- Model of `_collect_teacher_tabs` up to (and including) the final
`selected.sort(key=lambda t: t[0])`: the kept `(x, text, handle)` triples
sorted by ascending x. `modalY` is the container's bounding-box y (the
`except`/missing-box default being 0). -/
def collectTeacherTabsSorted (modalY : Option Rat) (cands : List TabCand) :
    List (Rat × String × Nat) :=
  (selectTabs (modalY.getD 0) cands.enum []).mergeSort (fun a b => decide (a.1 ≤ b.1))

/-- The return value of `_collect_teacher_tabs`: the sorted `(text, handle)`
pairs, with handles identified by their index in the candidate list. -/
def collectTeacherTabs (modalY : Option Rat) (cands : List TabCand) : List (String × Nat) :=
  (collectTeacherTabsSorted modalY cands).map (fun t => (t.2.1, t.2.2))

/-- Soundness of the selection loop: every kept triple comes from a candidate
of the input list whose text survived every filter and whose box is not too
low, and its text is not in the `seen` set the loop started from. -/
theorem selectTabs_sound (topY : Rat) :
    ∀ (l : List (Nat × TabCand)) (seen : List String) (x : Rat) (t : String) (i : Nat),
      (x, t, i) ∈ selectTabs topY l seen →
      ∃ c : TabCand, (i, c) ∈ l ∧ c.text = some t ∧ x = candX c ∧
        boxTooLow topY c = false ∧ skipTextSet.contains t = false ∧ t ≠ "" ∧
        seen.contains t = false := by
  intro l
  induction l with
  | nil => intro seen x t i h; simp [selectTabs] at h
  | cons hd rest ih =>
    intro seen x t i h
    obtain ⟨j, c⟩ := hd
    rw [selectTabs] at h
    cases hct : c.text with
    | none =>
      simp only [hct] at h
      obtain ⟨c', hm, h1, h2, h3, h4, h5, h6⟩ := ih seen x t i h
      exact ⟨c', List.mem_cons_of_mem _ hm, h1, h2, h3, h4, h5, h6⟩
    | some txt =>
      simp only [hct] at h
      cases hflt : textFiltered seen txt with
      | true =>
        simp only [hflt, if_true] at h
        obtain ⟨c', hm, h1, h2, h3, h4, h5, h6⟩ := ih seen x t i h
        exact ⟨c', List.mem_cons_of_mem _ hm, h1, h2, h3, h4, h5, h6⟩
      | false =>
        simp only [hflt, Bool.false_eq_true, if_false] at h
        cases hlow : boxTooLow topY c with
        | true =>
          simp only [hlow, if_true] at h
          obtain ⟨c', hm, h1, h2, h3, h4, h5, h6⟩ := ih seen x t i h
          exact ⟨c', List.mem_cons_of_mem _ hm, h1, h2, h3, h4, h5, h6⟩
        | false =>
          simp only [hlow, Bool.false_eq_true, if_false] at h
          have hfc : (¬ (txt = "") ∧ skipTextSet.contains txt = false) ∧
              seen.contains txt = false := by
            simpa [textFiltered] using hflt
          rcases List.mem_cons.mp h with heq | htail
          · obtain ⟨hx, ht, hi⟩ : x = candX c ∧ t = txt ∧ i = j := by
              simpa [Prod.ext_iff] using heq
            subst hx; subst ht; subst hi
            exact ⟨c, List.mem_cons_self _ _, hct, rfl, hlow, hfc.1.2, hfc.1.1, hfc.2⟩
          · obtain ⟨c', hm, h1, h2, h3, h4, h5, h6⟩ := ih (txt :: seen) x t i htail
            refine ⟨c', List.mem_cons_of_mem _ hm, h1, h2, h3, h4, h5, ?_⟩
            simp only [List.contains_cons, Bool.or_eq_false_iff] at h6
            exact h6.2

/-- The selection loop never keeps two entries with the same text: the `seen`
set deduplicates labels. -/
theorem selectTabs_text_nodup (topY : Rat) :
    ∀ (l : List (Nat × TabCand)) (seen : List String),
      ((selectTabs topY l seen).map (fun e => e.2.1)).Nodup := by
  intro l
  induction l with
  | nil => intro seen; simp [selectTabs]
  | cons hd rest ih =>
    intro seen
    obtain ⟨j, c⟩ := hd
    rw [selectTabs]
    cases hct : c.text with
    | none => exact ih seen
    | some txt =>
      cases hflt : textFiltered seen txt with
      | true => simp only [hct, hflt, if_true]; exact ih seen
      | false =>
        cases hlow : boxTooLow topY c with
        | true =>
          simp only [hct, hflt, hlow, Bool.false_eq_true, if_false, if_true]
          exact ih seen
        | false =>
          simp only [hct, hflt, hlow, Bool.false_eq_true, if_false, List.map_cons]
          refine List.nodup_cons.mpr ⟨?_, ih (txt :: seen)⟩
          intro hmem
          rw [List.mem_map] at hmem
          obtain ⟨e, he, hetext⟩ := hmem
          obtain ⟨x, t, i⟩ := e
          obtain ⟨c2, -, -, -, -, -, -, h6⟩ :=
            selectTabs_sound topY rest (txt :: seen) x t i he
          simp only [List.contains_cons, Bool.or_eq_false_iff] at h6
          simp only at hetext
          rw [hetext] at h6
          simpa using h6.1

/-- Positional converse of `List.mem_enumFrom`. -/
theorem mem_enumFrom_of_getElem? {α : Type} :
    ∀ (cs : List α) (n j : Nat) (c : α),
      cs[j]? = some c → (n + j, c) ∈ List.enumFrom n cs := by
  intro cs
  induction cs with
  | nil => intro n j c h; simp at h
  | cons c0 cs ih =>
    intro n j c h
    cases j with
    | zero =>
      simp only [List.getElem?_cons_zero, Option.some.injEq] at h
      subst h
      simp [List.enumFrom]
    | succ j =>
      simp only [List.getElem?_cons_succ] at h
      have hmem := ih (n + 1) j c h
      have harith : n + 1 + j = n + (j + 1) := by omega
      rw [harith] at hmem
      simp [List.enumFrom, hmem]

/-- The entry the selection loop keeps for a text label is the first
occurrence encountered: every earlier candidate carrying the same text was
excluded by the bounding-box position filter (no other filter can have
removed it, since the text itself survived to be kept). -/
theorem selectTabs_first_occurrence (topY : Rat) :
    ∀ (cs : List TabCand) (n : Nat) (seen : List String) (x : Rat) (t : String) (i : Nat),
      (x, t, i) ∈ selectTabs topY (List.enumFrom n cs) seen →
      ∀ (j : Nat) (c : TabCand), (j, c) ∈ List.enumFrom n cs → j < i → c.text = some t →
      boxTooLow topY c = true := by
  intro cs
  induction cs with
  | nil => intro n seen x t i h; simp [selectTabs] at h
  | cons c0 cs ih =>
    intro n seen x t i h j c hjc hji hctext
    rw [List.enumFrom_cons] at h hjc
    rw [selectTabs] at h
    cases hct : c0.text with
    | none =>
      simp only [hct] at h
      rcases List.mem_cons.mp hjc with heq | htail
      · have hc : c = c0 := congrArg Prod.snd heq
        rw [hc, hct] at hctext
        exact Option.noConfusion hctext
      · exact ih (n + 1) seen x t i h j c htail hji hctext
    | some txt =>
      simp only [hct] at h
      cases hflt : textFiltered seen txt with
      | true =>
        simp only [hflt, if_true] at h
        rcases List.mem_cons.mp hjc with heq | htail
        · have hc : c = c0 := congrArg Prod.snd heq
          have htxteq : txt = t := by
            rw [hc, hct] at hctext
            exact Option.some.inj hctext
          obtain ⟨c2, -, -, -, -, h4, h5, h6⟩ :=
            selectTabs_sound topY (List.enumFrom (n + 1) cs) seen x t i h
          exfalso
          have hfalse : textFiltered seen t = false := by
            simp only [textFiltered, Bool.or_eq_false_iff]
            refine ⟨⟨?_, h4⟩, h6⟩
            simpa using h5
          rw [htxteq, hfalse] at hflt
          exact Bool.noConfusion hflt
        · exact ih (n + 1) seen x t i h j c htail hji hctext
      | false =>
        simp only [hflt, Bool.false_eq_true, if_false] at h
        cases hlow : boxTooLow topY c0 with
        | true =>
          simp only [hlow, if_true] at h
          rcases List.mem_cons.mp hjc with heq | htail
          · have hc : c = c0 := congrArg Prod.snd heq
            rw [hc]
            exact hlow
          · exact ih (n + 1) seen x t i h j c htail hji hctext
        | false =>
          simp only [hlow, Bool.false_eq_true, if_false] at h
          rcases List.mem_cons.mp h with heq | htail
          · have hi : i = n := congrArg (fun e => e.2.2) heq
            rcases List.mem_cons.mp hjc with heq2 | htail2
            · have hj : j = n := congrArg Prod.fst heq2
              omega
            · have := (List.mem_enumFrom htail2).1
              omega
          · rcases List.mem_cons.mp hjc with heq2 | htail2
            · have hc : c = c0 := congrArg Prod.snd heq2
              have htxteq : txt = t := by
                rw [hc, hct] at hctext
                exact Option.some.inj hctext
              obtain ⟨c2, -, -, -, -, -, -, h6⟩ :=
                selectTabs_sound topY (List.enumFrom (n + 1) cs) (txt :: seen) x t i htail
              exfalso
              rw [htxteq] at h6
              simp at h6
            · exact ih (n + 1) (txt :: seen) x t i htail j c htail2 hji hctext

/-- Every entry of the sorted tab list traces back to its candidate, which
passed every filter. -/
theorem collectSorted_sound (modalY : Option Rat) (cands : List TabCand)
    (x : Rat) (t : String) (i : Nat)
    (hmem : (x, t, i) ∈ collectTeacherTabsSorted modalY cands) :
    ∃ c : TabCand, cands[i]? = some c ∧ c.text = some t ∧ x = candX c ∧
      boxTooLow (modalY.getD 0) c = false ∧ skipTextSet.contains t = false ∧ t ≠ "" := by
  have hperm : (collectTeacherTabsSorted modalY cands).Perm
      (selectTabs (modalY.getD 0) cands.enum []) :=
    List.mergeSort_perm _ _
  have hmem2 := hperm.subset hmem
  obtain ⟨c, hm, h1, h2, h3, h4, h5, -⟩ :=
    selectTabs_sound (modalY.getD 0) cands.enum [] x t i hmem2
  rw [List.enum_eq_enumFrom] at hm
  obtain ⟨-, hlt, hc⟩ := List.mem_enumFrom hm
  refine ⟨c, ?_, h1, h2, h3, h4, h5⟩
  rw [List.getElem?_eq_some]
  refine ⟨by omega, ?_⟩
  simpa using hc.symm

/-- C4: heuristic teacher-tab collection excludes any candidate lying more
than 220px below the container top regardless of its text, excludes the
known skip-set labels, deduplicates text labels keeping only the first
occurrence encountered, and returns the result sorted by ascending
bounding-box x position. -/
theorem collectTeacherTabs_filter_dedup_sort (modalY : Option Rat) (cands : List TabCand) :
    (∀ (x : Rat) (t : String) (i : Nat), (x, t, i) ∈ collectTeacherTabsSorted modalY cands →
      ∃ c : TabCand, cands[i]? = some c ∧ c.text = some t ∧ x = candX c ∧
        boxTooLow (modalY.getD 0) c = false ∧ skipTextSet.contains t = false ∧ t ≠ "")
    ∧ (∀ (i : Nat) (c : TabCand), cands[i]? = some c → boxTooLow (modalY.getD 0) c = true →
        ∀ (x : Rat) (t : String), (x, t, i) ∉ collectTeacherTabsSorted modalY cands)
    ∧ ((collectTeacherTabsSorted modalY cands).map (fun e => e.2.1)).Nodup
    ∧ (∀ (x : Rat) (t : String) (i : Nat), (x, t, i) ∈ collectTeacherTabsSorted modalY cands →
        ∀ (j : Nat) (c : TabCand), j < i → cands[j]? = some c → c.text = some t →
          boxTooLow (modalY.getD 0) c = true)
    ∧ (collectTeacherTabsSorted modalY cands).Pairwise (fun a b => a.1 ≤ b.1)
    ∧ collectTeacherTabs modalY cands
        = (collectTeacherTabsSorted modalY cands).map (fun t => (t.2.1, t.2.2)) := by
  have hperm : (collectTeacherTabsSorted modalY cands).Perm
      (selectTabs (modalY.getD 0) cands.enum []) :=
    List.mergeSort_perm _ _
  refine ⟨collectSorted_sound modalY cands, ?_, ?_, ?_, ?_, rfl⟩
  · intro i c hc hlow x t hmem
    obtain ⟨c2, hc2, -, -, hlow2, -, -⟩ := collectSorted_sound modalY cands x t i hmem
    rw [hc] at hc2
    obtain rfl : c2 = c := (Option.some.inj hc2).symm
    rw [hlow] at hlow2
    exact Bool.noConfusion hlow2
  · exact (hperm.map (fun e => e.2.1)).nodup_iff.mpr
      (selectTabs_text_nodup (modalY.getD 0) cands.enum [])
  · intro x t i hmem j c hji hcj hctext
    have hmem2 := hperm.subset hmem
    rw [List.enum_eq_enumFrom] at hmem2
    have hjmem := mem_enumFrom_of_getElem? cands 0 j c hcj
    rw [Nat.zero_add] at hjmem
    exact selectTabs_first_occurrence (modalY.getD 0) cands 0 [] x t i hmem2 j c
      hjmem hji hctext
  · have htrans : ∀ (a b c : Rat × String × Nat),
        (fun a b => decide (a.1 ≤ b.1)) a b = true →
        (fun a b => decide (a.1 ≤ b.1)) b c = true →
        (fun a b => decide (a.1 ≤ b.1)) a c = true := by
      intro a b c hab hbc
      simp only [decide_eq_true_eq] at hab hbc ⊢
      exact le_trans hab hbc
    have htotal : ∀ (a b : Rat × String × Nat),
        ((fun a b => decide (a.1 ≤ b.1)) a b || (fun a b => decide (a.1 ≤ b.1)) b a) = true := by
      intro a b
      simp only [Bool.or_eq_true, decide_eq_true_eq]
      exact le_total a.1 b.1
    have hs := List.sorted_mergeSort htrans htotal
      (selectTabs (modalY.getD 0) cands.enum [])
    exact hs.imp (fun h => of_decide_eq_true h)

/-- Witness for C4: with the container top at y = 100, a candidate named 王五
sitting at y = 900 (more than 220px below the top) is excluded from the
returned tab set even though its text matches the name pattern. -/
theorem collectTeacherTabs_filter_dedup_sort_witness :
    ((5 : Rat), "王五", 3) ∉ collectTeacherTabsSorted (some 100)
      [ { text := some "提交", box := some (0, 10) },
        { text := some "张三", box := some (50, 120) },
        { text := some "李四", box := some (10, 130) },
        { text := some "王五", box := some (5, 900) },
        { text := some "张三", box := some (1, 110) } ] :=
  (collectTeacherTabs_filter_dedup_sort (some 100)
      [ { text := some "提交", box := some (0, 10) },
        { text := some "张三", box := some (50, 120) },
        { text := some "李四", box := some (10, 130) },
        { text := some "王五", box := some (5, 900) },
        { text := some "张三", box := some (1, 110) } ]).2.1 3
    { text := some "王五", box := some (5, 900) } (by rfl)
    (by simp only [boxTooLow, Option.getD_some]; norm_num) 5 "王五"

/-- An exception raised by an underlying Playwright call: the timeout error
class (`PlaywrightTimeoutError`) that `_safe_click` catches specially, or any
other platform error (tagged with a code so distinct errors stay distinct). -/
inductive Exn where
  | timeout
  | other : Nat → Exn
  deriving DecidableEq, Repr

/-- Outcome of one underlying call: `none` is success, `some e` means the
call raised `e`. -/
abbrev StepResult := Option Exn

/-- The interaction steps `_safe_click` can attempt, in escalation order:
`plainClick` is `locator.click(timeout=2000)`; `scrollIntoView` and
`hoverStep` are the best-effort preparations; `forceClick` is
`locator.click(timeout=2000, force=True)`; `jsClick` is
`locator.evaluate("el => el.click()")`; `jsDispatch` dispatches a synthesized
bubbling, cancelable mouse click event on the element. -/
inductive ClickStep where
  | plainClick
  | scrollIntoView
  | hoverStep
  | forceClick
  | jsClick
  | jsDispatch
  deriving DecidableEq, Repr

/-- Model of `_safe_click` (assistant.py lines 192-221), as a function of the outcomes
of the six underlying calls it can make: result (normal return or propagated
exception) plus the steps attempted, in order. The scroll and hover outcomes
are swallowed by their own inner handlers and never affect the
result (they are the second and third arguments); a timeout of the plain or
forced click moves to the next rung while
any other error propagates; the terminal dispatch is unprotected, so whatever
it raises propagates unmodified. -/
def safeClick (c1 _scr _hov cf ec ed : StepResult) : Except Exn Unit × List ClickStep :=
  match c1 with
  | none => (.ok (), [.plainClick])
  | some .timeout =>
    match cf with
    | none => (.ok (), [.plainClick, .scrollIntoView, .hoverStep, .forceClick])
    | some .timeout =>
      match ec with
      | none =>
        (.ok (), [.plainClick, .scrollIntoView, .hoverStep, .forceClick, .jsClick])
      | some _ =>
        match ed with
        | none =>
          (.ok (),
            [.plainClick, .scrollIntoView, .hoverStep, .forceClick, .jsClick, .jsDispatch])
        | some e =>
          (.error e,
            [.plainClick, .scrollIntoView, .hoverStep, .forceClick, .jsClick, .jsDispatch])
    | some (.other n) =>
      (.error (.other n), [.plainClick, .scrollIntoView, .hoverStep, .forceClick])
  | some (.other n) => (.error (.other n), [.plainClick])

/-- C5: the click retrier escalates only on timeout — a plain-click timeout
leads to scroll-into-view and hover (best-effort, their outcomes ignored)
then a forced click; a forced-click timeout leads to the direct element
click, falling back to dispatching the synthesized mouse event; non-timeout
errors of the plain or forced click propagate; the terminal JS step never
reports failure except that an error of the final dispatch propagates
unmodified. -/
theorem safeClick_escalation (c1 scr hov cf ec ed : StepResult) :
    (c1 = none → safeClick c1 scr hov cf ec ed = (.ok (), [.plainClick]))
    ∧ (∀ n, c1 = some (.other n) →
        safeClick c1 scr hov cf ec ed = (.error (.other n), [.plainClick]))
    ∧ (c1 = some .timeout →
        (safeClick c1 scr hov cf ec ed).2.take 4
          = [.plainClick, .scrollIntoView, .hoverStep, .forceClick])
    ∧ (∀ scr2 hov2, safeClick c1 scr hov cf ec ed = safeClick c1 scr2 hov2 cf ec ed)
    ∧ (c1 = some .timeout → cf = none → (safeClick c1 scr hov cf ec ed).1 = .ok ())
    ∧ (∀ n, c1 = some .timeout → cf = some (.other n) →
        (safeClick c1 scr hov cf ec ed).1 = .error (.other n))
    ∧ (c1 = some .timeout → cf = some .timeout → ec = none →
        (safeClick c1 scr hov cf ec ed).1 = .ok ())
    ∧ (c1 = some .timeout → cf = some .timeout → ec ≠ none → ed = none →
        (safeClick c1 scr hov cf ec ed).1 = .ok ()
        ∧ (safeClick c1 scr hov cf ec ed).2.getLast? = some .jsDispatch)
    ∧ (∀ e, c1 = some .timeout → cf = some .timeout → ec ≠ none → ed = some e →
        (safeClick c1 scr hov cf ec ed).1 = .error e) := by
  refine ⟨?_, ?_, ?_, ?_, ?_, ?_, ?_, ?_, ?_⟩
  · rintro rfl; rfl
  · rintro n rfl; rfl
  · rintro rfl
    rcases cf with - | e2
    · rfl
    · rcases e2 with - | n2
      · rcases ec with - | e3
        · rfl
        · rcases ed with - | e4 <;> rfl
      · rfl
  · intro scr2 hov2; rfl
  · rintro rfl rfl; rfl
  · rintro n rfl rfl; rfl
  · rintro rfl rfl rfl; rfl
  · rintro rfl rfl hne rfl
    rcases ec with - | e3
    · exact absurd rfl hne
    · exact ⟨rfl, rfl⟩
  · rintro e rfl rfl hne rfl
    rcases ec with - | e3
    · exact absurd rfl hne
    · rfl

/-- Witness for C5: a non-timeout plain-click error propagates, and an error
of the terminal dispatch propagates unmodified. -/
theorem safeClick_escalation_witness :
    safeClick (some (.other 7)) none none none none none
      = (.error (.other 7), [.plainClick])
    ∧ (safeClick (some .timeout) none none (some .timeout) (some (.other 1))
        (some (.other 2))).1 = .error (.other 2) := by
  constructor
  · exact (safeClick_escalation (some (.other 7)) none none none none none).2.1 7 rfl
  · exact (safeClick_escalation (some .timeout) none none (some .timeout)
      (some (.other 1)) (some (.other 2))).2.2.2.2.2.2.2.2 (.other 2) rfl rfl
      (by simp) rfl

/-- Python `"disabled" in s` substring containment. -/
def containsDisabled (s : String) : Bool :=
  decide ("disabled".data <:+: s.data)

/-- Python `str.lower`, modelled as per-character ASCII case folding (all the
comparison against "true" needs). -/
def lowerStr (s : String) : String :=
  String.mk (s.data.map Char.toLower)

/-- Snapshot of the next-page control lookups at the bottom of
`assist_all_pages` (assistant.py lines 716-737): match counts for the id
selector `#kcpjDataTable_next` and the localized-text fallback selector, and
the attribute reads on the located control. `none` models a missing
attribute; for the parent's class, the outer `none` models an exception
while querying the parent (which the code converts to an empty string). -/
structure NextBtnEnv where
  idCount : Nat
  textCount : Nat
  classAttr : Option String
  parentClassQ : Option (Option String)
  ariaDisabled : Option String
  deriving DecidableEq, Repr

/-- The two possible continuations of the pagination loop: stop (treated as
the last page) or click the control, pause 500ms and resume the item loop. -/
inductive PageDecision where
  | lastPage
  | advance
  deriving DecidableEq, Repr

/-- The pagination decision of `assist_all_pages`: locate the next-page
control by id first and by localized text as fallback; absence is the last
page; otherwise read `class`, `aria-disabled` and the parent's `class`
(missing attribute or a parent-query exception → "") and stop when a class
contains "disabled" or the lowercased aria-disabled equals "true"; in every
other case advance. -/
def nextPageDecision (e : NextBtnEnv) : PageDecision :=
  if e.idCount = 0 ∧ e.textCount = 0 then .lastPage
  else
    let classes := e.classAttr.getD ""
    let aria := e.ariaDisabled.getD ""
    let parentClasses :=
      match e.parentClassQ with
      | none => ""
      | some a => a.getD ""
    if containsDisabled classes || containsDisabled parentClasses
        || lowerStr aria == "true" then .lastPage
    else .advance

/-- The termination condition exactly as the specification's pagination
sentence words it, with a case-sensitive comparison of the `aria-disabled`
attribute against "true". -/
def claimStopCond (e : NextBtnEnv) : Prop :=
  (e.idCount = 0 ∧ e.textCount = 0)
  ∨ containsDisabled (e.classAttr.getD "") = true
  ∨ (∃ pc, e.parentClassQ = some pc ∧ containsDisabled (pc.getD "") = true)
  ∨ e.ariaDisabled = some "true"

/-- Counterexample to C6 as stated: a present, enabled-looking control with
`aria-disabled="True"` (capital T) is treated as the last page by the code,
although none of the claim's four termination conditions — which compare the
attribute against the exact string "true" — holds. -/
theorem nextPage_aria_case_counterexample :
    nextPageDecision
      { idCount := 1, textCount := 0, classAttr := some "paginate_button next",
        parentClassQ := some (some "paginate"), ariaDisabled := some "True" }
      = .lastPage
    ∧ ¬ claimStopCond
      { idCount := 1, textCount := 0, classAttr := some "paginate_button next",
        parentClassQ := some (some "paginate"), ariaDisabled := some "True" } := by
  constructor
  · decide
  · intro h
    rcases h with ⟨h1, -⟩ | h | ⟨pc, hpc, h⟩ | h
    · exact absurd h1 (by decide)
    · exact absurd h (by decide)
    · have : pc = some "paginate" := (Option.some.inj hpc).symm
      rw [this] at h
      exact absurd h (by decide)
    · exact absurd h (by decide)

/-- Shape of the pagination decision as two nested conditionals. -/
theorem nextPage_ite_iff (p : Prop) [inst : Decidable p] (b : Bool) :
    ((if p then PageDecision.lastPage else if b = true then PageDecision.lastPage
      else PageDecision.advance) = PageDecision.lastPage) ↔ (p ∨ b = true) := by
  by_cases hp : p
  · simp [hp]
  · cases b <;> simp [hp]

/-- C6 (amended): after the current page's pending items are drained,
pagination locates the next-page control by id first and localized text as
fallback, and terminates exactly when the control is absent, its class or
its parent's class contains the disabled marker, or its aria-disabled
attribute equals "true" case-insensitively; in every other case it clicks
the control, pauses briefly and resumes the item loop. -/
theorem nextPageDecision_stop_iff (e : NextBtnEnv) :
    (nextPageDecision e = .lastPage ↔
      (e.idCount = 0 ∧ e.textCount = 0)
      ∨ containsDisabled (e.classAttr.getD "") = true
      ∨ (∃ pc, e.parentClassQ = some pc ∧ containsDisabled (pc.getD "") = true)
      ∨ (∃ a, e.ariaDisabled = some a ∧ lowerStr a = "true"))
    ∧ (nextPageDecision e = .advance ↔
      ¬ ((e.idCount = 0 ∧ e.textCount = 0)
        ∨ containsDisabled (e.classAttr.getD "") = true
        ∨ (∃ pc, e.parentClassQ = some pc ∧ containsDisabled (pc.getD "") = true)
        ∨ (∃ a, e.ariaDisabled = some a ∧ lowerStr a = "true"))) := by
  obtain ⟨idC, txtC, clsA, pcq, aria⟩ := e
  have hstop : nextPageDecision ⟨idC, txtC, clsA, pcq, aria⟩ = .lastPage ↔
      (idC = 0 ∧ txtC = 0)
      ∨ containsDisabled (clsA.getD "") = true
      ∨ (∃ pc, pcq = some pc ∧ containsDisabled (pc.getD "") = true)
      ∨ (∃ a, aria = some a ∧ lowerStr a = "true") := by
    rcases pcq with - | pc <;> rcases aria with - | a <;>
      · simp only [nextPageDecision]
        rw [nextPage_ite_iff]
        simp [containsDisabled, lowerStr]
        try tauto
  refine ⟨hstop, ?_⟩
  rw [← hstop]
  cases h : nextPageDecision ⟨idC, txtC, clsA, pcq, aria⟩ <;> simp

/-- The `delays_ms` bounds (config.py `Delays`). -/
structure Delays where
  min : Int
  max : Int
  deriving DecidableEq, Repr

/-- The validated application configuration (config.py `AppConfig`), reduced
to the fields the assistant logic modelled here reads. -/
structure AppConfig where
  ratingText : String
  commentTemplates : List String
  delays : Delays
  manualSubmitMaxWaitS : Int
  submitButtonSel : String
  deriving DecidableEq, Repr

/-- The values `load_config` distils from the YAML document, after the
per-field defaulting (e.g. the delay bounds default to 100/350 when the
document omits them). -/
structure RawConfig where
  ratingText : String
  commentTemplates : List String
  delaysMin : Int
  delaysMax : Int
  manualSubmitMaxWaitS : Int
  submitButtonSel : String
  deriving DecidableEq, Repr

/-- Model of `load_config` (config.py lines 48-94): build the config, then fail fast —
at load time, before any browser interaction — when the comment template pool
is empty or the delay bounds are invalid (`min < 0` or `max < min`). -/
def loadConfig (d : RawConfig) : Except String AppConfig :=
  let cfg : AppConfig :=
    { ratingText := d.ratingText
      commentTemplates := d.commentTemplates
      delays := { min := d.delaysMin, max := d.delaysMax }
      manualSubmitMaxWaitS := d.manualSubmitMaxWaitS
      submitButtonSel := d.submitButtonSel }
  if cfg.commentTemplates.isEmpty then .error "comment_templates 不能为空"
  else if cfg.delays.min < 0 ∨ cfg.delays.max < cfg.delays.min then
    .error "delays_ms 配置不合法"
  else .ok cfg

/-- Model of `random.randint(a, b)`: a draw from the inclusive integer range [a, b],
modelled by reducing an arbitrary draw index `r` into the range. -/
def randint (a b : Int) (r : Nat) : Int :=
  a + (r : Int) % (b - a + 1)

/-- Model of `_rand_delay` (assistant.py lines 414-416): the milliseconds value of
`random.randint(cfg.delays_ms.min, cfg.delays_ms.max)`. -/
def randDelay (cfg : AppConfig) (r : Nat) : Int :=
  randint cfg.delays.min cfg.delays.max r

/-- Every draw from a nonempty inclusive range lies within its bounds. -/
theorem randint_mem (a b : Int) (hab : a ≤ b) (r : Nat) :
    a ≤ randint a b r ∧ randint a b r ≤ b := by
  have hm : (0 : Int) < b - a + 1 := by omega
  have h1 : 0 ≤ (r : Int) % (b - a + 1) := Int.emod_nonneg _ (by omega)
  have h2 : (r : Int) % (b - a + 1) < b - a + 1 := Int.emod_lt_of_pos _ hm
  unfold randint
  omega

/-- C7: `load_config` raises a configuration error at load time when the
comment pool is empty or the delay bounds are invalid (min < 0 or max < min);
a valid configuration loads with its bounds intact, and every delay
`_rand_delay` generates under it satisfies min ≤ D ≤ max — in particular
100 ≤ D ≤ 350 for the min=100, max=350 configuration. -/
theorem loadConfig_validation (d : RawConfig) :
    (d.commentTemplates = [] → loadConfig d = .error "comment_templates 不能为空")
    ∧ (d.commentTemplates ≠ [] → (d.delaysMin < 0 ∨ d.delaysMax < d.delaysMin) →
        loadConfig d = .error "delays_ms 配置不合法")
    ∧ (∀ cfg : AppConfig, loadConfig d = .ok cfg →
        cfg.delays.min = d.delaysMin ∧ cfg.delays.max = d.delaysMax ∧
        0 ≤ cfg.delays.min ∧ cfg.delays.min ≤ cfg.delays.max ∧
        ∀ r : Nat, cfg.delays.min ≤ randDelay cfg r ∧ randDelay cfg r ≤ cfg.delays.max)
    ∧ (d.delaysMin = 100 → d.delaysMax = 350 → d.commentTemplates ≠ [] →
        ∃ cfg : AppConfig, loadConfig d = .ok cfg ∧
          ∀ r : Nat, 100 ≤ randDelay cfg r ∧ randDelay cfg r ≤ 350) := by
  refine ⟨?_, ?_, ?_, ?_⟩
  · intro h
    simp [loadConfig, h]
  · intro h1 h2
    simp [loadConfig, List.isEmpty_iff, h1, h2]
  · intro cfg h
    rw [loadConfig] at h
    split at h
    · exact Except.noConfusion h
    · split at h
      · exact Except.noConfusion h
      · rename_i hval
        push_neg at hval
        dsimp only at hval
        obtain rfl : _ = cfg := Except.ok.inj h
        refine ⟨rfl, rfl, hval.1, hval.2, ?_⟩
        intro r
        exact randint_mem _ _ hval.2 r
  · intro hmin hmax hne
    have hok : loadConfig d = .ok
        { ratingText := d.ratingText, commentTemplates := d.commentTemplates,
          delays := { min := d.delaysMin, max := d.delaysMax },
          manualSubmitMaxWaitS := d.manualSubmitMaxWaitS,
          submitButtonSel := d.submitButtonSel } := by
      rw [loadConfig]
      rw [if_neg (by simpa [List.isEmpty_iff] using hne)]
      rw [if_neg (by dsimp only; omega)]
    refine ⟨_, hok, ?_⟩
    intro r
    have := randint_mem d.delaysMin d.delaysMax (by omega) r
    simp only [randDelay, randint] at *
    omega

/-- Witness for C7: the default-shaped configuration with bounds 100/350
loads, its delay draw stays in [100, 350], and swapping the bounds to
100/50 is rejected at load time. -/
theorem loadConfig_validation_witness :
    loadConfig
      { ratingText := "很满意", commentTemplates := ["老师讲课认真负责"],
        delaysMin := 100, delaysMax := 350, manualSubmitMaxWaitS := 0,
        submitButtonSel := ".modal-footer button.sure" }
      = .ok
      { ratingText := "很满意", commentTemplates := ["老师讲课认真负责"],
        delays := { min := 100, max := 350 }, manualSubmitMaxWaitS := 0,
        submitButtonSel := ".modal-footer button.sure" }
    ∧ 100 ≤ randDelay
      { ratingText := "很满意", commentTemplates := ["老师讲课认真负责"],
        delays := { min := 100, max := 350 }, manualSubmitMaxWaitS := 0,
        submitButtonSel := ".modal-footer button.sure" } 987
    ∧ randDelay
      { ratingText := "很满意", commentTemplates := ["老师讲课认真负责"],
        delays := { min := 100, max := 350 }, manualSubmitMaxWaitS := 0,
        submitButtonSel := ".modal-footer button.sure" } 987 ≤ 350
    ∧ loadConfig
      { ratingText := "很满意", commentTemplates := ["老师讲课认真负责"],
        delaysMin := 100, delaysMax := 50, manualSubmitMaxWaitS := 0,
        submitButtonSel := ".modal-footer button.sure" }
      = .error "delays_ms 配置不合法" := by
  refine ⟨rfl, ?_, ?_, ?_⟩
  · exact (((loadConfig_validation
      { ratingText := "很满意", commentTemplates := ["老师讲课认真负责"],
        delaysMin := 100, delaysMax := 350, manualSubmitMaxWaitS := 0,
        submitButtonSel := ".modal-footer button.sure" }).2.2.1 _ rfl).2.2.2.2 987).1
  · exact (((loadConfig_validation
      { ratingText := "很满意", commentTemplates := ["老师讲课认真负责"],
        delaysMin := 100, delaysMax := 350, manualSubmitMaxWaitS := 0,
        submitButtonSel := ".modal-footer button.sure" }).2.2.1 _ rfl).2.2.2.2 987).2
  · exact (loadConfig_validation
      { ratingText := "很满意", commentTemplates := ["老师讲课认真负责"],
        delaysMin := 100, delaysMax := 50, manualSubmitMaxWaitS := 0,
        submitButtonSel := ".modal-footer button.sure" }).2.1 (by simp)
      (Or.inr (by norm_num))

/-- What one `modal_locator.is_visible()` poll observes: visible, hidden, or
an exception raised while querying the torn-down modal. -/
inductive VisObs where
  | vis
  | hid
  | raiseExn
  deriving DecidableEq, Repr

/-- How one run of the `_wait_modal_closed` loop ends on a finite stream of
observations: returned normally (modal closed), raised
`TimeoutError("等待手动提交超时")`, or still polling when the stream runs
out. -/
inductive WaitOutcome where
  | closed
  | timedOut
  | stillWaiting
  deriving DecidableEq, Repr

/-- Model of `_wait_modal_closed` (assistant.py lines 463-491) over a finite stream of
poll ticks, each carrying the visibility observation and the elapsed
`time.monotonic() - start` (in whole seconds) at that tick's timeout check.
Returns the outcome paired with the number of `_dismiss_success_dialog`
attempts performed; per the source, a tick first checks visibility (an
exception there returns normally, like a hidden modal), then dismisses the
success dialog, then checks `max_wait_s and elapsed > max_wait_s`. The
periodic status print changes no control flow and is not modelled. -/
def waitModalClosed (maxWaitS : Nat) : List (VisObs × Nat) → WaitOutcome × Nat
  | [] => (.stillWaiting, 0)
  | (v, elapsed) :: rest =>
    match v with
    | .raiseExn => (.closed, 0)
    | .hid => (.closed, 0)
    | .vis =>
      if maxWaitS ≠ 0 ∧ elapsed > maxWaitS then (.timedOut, 1)
      else
        let r := waitModalClosed maxWaitS rest
        (r.1, r.2 + 1)

/-- C9: the modal-closed wait returns normally as soon as the modal is not
visible, treats an exception while querying the modal as the modal being
closed, attempts a success-dialog dismissal on every poll tick while
waiting, blocks indefinitely when its maximum wait is 0, and raises a
TimeoutError once the elapsed wait exceeds a nonzero maximum. -/
theorem waitModalClosed_behavior (maxWaitS : Nat) :
    (∀ (pre : List (VisObs × Nat)) (v : VisObs) (t : Nat) (post : List (VisObs × Nat)),
      (∀ e ∈ pre, e.1 = VisObs.vis ∧ ¬(maxWaitS ≠ 0 ∧ e.2 > maxWaitS)) →
      (v = .hid ∨ v = .raiseExn) →
      waitModalClosed maxWaitS (pre ++ (v, t) :: post) = (.closed, pre.length))
    ∧ (∀ obs : List (VisObs × Nat), maxWaitS = 0 →
        (waitModalClosed maxWaitS obs).1 ≠ .timedOut)
    ∧ (∀ obs : List (VisObs × Nat), maxWaitS = 0 → (∀ e ∈ obs, e.1 = VisObs.vis) →
        waitModalClosed maxWaitS obs = (.stillWaiting, obs.length))
    ∧ (∀ (pre : List (VisObs × Nat)) (t : Nat) (post : List (VisObs × Nat)),
        maxWaitS ≠ 0 →
        (∀ e ∈ pre, e.1 = VisObs.vis ∧ e.2 ≤ maxWaitS) →
        t > maxWaitS →
        waitModalClosed maxWaitS (pre ++ (.vis, t) :: post)
          = (.timedOut, pre.length + 1)) := by
  refine ⟨?_, ?_, ?_, ?_⟩
  · intro pre
    induction pre with
    | nil =>
      rintro v t post - hv
      rcases hv with rfl | rfl <;> rfl
    | cons e0 pre ih =>
      intro v t post hpre hv
      obtain ⟨v0, t0⟩ := e0
      have h0 := hpre (v0, t0) (List.mem_cons_self _ _)
      obtain ⟨hv0, hnt⟩ := h0
      simp only at hv0
      subst hv0
      rw [List.cons_append]
      simp only [waitModalClosed]
      rw [if_neg hnt]
      have := ih v t post (fun e he => hpre e (List.mem_cons_of_mem _ he)) hv
      simp [this]
  · intro obs h0
    subst h0
    induction obs with
    | nil => simp [waitModalClosed]
    | cons e rest ih =>
      obtain ⟨v, t⟩ := e
      cases v <;> simp only [waitModalClosed]
      · simp only [ne_eq, not_true_eq_false, false_and, if_false]
        simpa using ih
      · simp
      · simp
  · intro obs h0 hall
    subst h0
    induction obs with
    | nil => rfl
    | cons e rest ih =>
      obtain ⟨v, t⟩ := e
      have hv := hall (v, t) (List.mem_cons_self _ _)
      simp only at hv
      subst hv
      simp only [waitModalClosed, ne_eq, not_true_eq_false, false_and, if_false]
      have := ih (fun e he => hall e (List.mem_cons_of_mem _ he))
      simp [this]
  · intro pre
    induction pre with
    | nil =>
      rintro t post hne - ht
      rw [List.nil_append]
      simp only [waitModalClosed]
      rw [if_pos ⟨hne, ht⟩]
      rfl
    | cons e0 pre ih =>
      intro t post hne hpre ht
      obtain ⟨v0, t0⟩ := e0
      obtain ⟨hv0, hle⟩ := hpre (v0, t0) (List.mem_cons_self _ _)
      simp only at hv0
      subst hv0
      rw [List.cons_append]
      simp only [waitModalClosed]
      rw [if_neg (by omega)]
      have := ih t post hne (fun e he => hpre e (List.mem_cons_of_mem _ he)) ht
      simp [this]

/-- Witness for C9: with no maximum wait the loop is still polling after any
all-visible prefix; a hidden observation returns normally with one dismissal
per waiting tick; an exception returns normally; and a nonzero maximum wait
times out on the first overdue tick. -/
theorem waitModalClosed_behavior_witness :
    waitModalClosed 0 [(.vis, 0), (.vis, 11), (.vis, 22)] = (.stillWaiting, 3)
    ∧ waitModalClosed 5 [(.vis, 1), (.vis, 2), (.hid, 3)] = (.closed, 2)
    ∧ waitModalClosed 5 [(.raiseExn, 0)] = (.closed, 0)
    ∧ waitModalClosed 5 [(.vis, 1), (.vis, 6), (.vis, 7)] = (.timedOut, 2) := by
  refine ⟨?_, ?_, ?_, ?_⟩
  · exact (waitModalClosed_behavior 0).2.2.1 [(.vis, 0), (.vis, 11), (.vis, 22)]
      rfl (by decide)
  · exact (waitModalClosed_behavior 5).1 [(.vis, 1), (.vis, 2)] .hid 3 []
      (by decide) (Or.inl rfl)
  · exact (waitModalClosed_behavior 5).1 [] .raiseExn 0 [] (by decide) (Or.inr rfl)
  · exact (waitModalClosed_behavior 5).2.2.2 [(.vis, 1)] 6 [(.vis, 7)]
      (by decide) (by decide) (by decide)

/-- Model of `random.choice(cfg.comment_templates)`: a draw from exactly the
configured pool, modelled by reducing an arbitrary draw index into the
list. -/
def chooseComment (templates : List String) (idx : Nat) : String :=
  templates.getD (idx % templates.length) ""

/-- The active-block content one `_prefill_active_block` call sees:
the matches of the configured question selector, the comment draw, the
progress counter (`none` = no counter element; `some p` = a counter whose
text parses to `p` under the `(\d+)\s*/\s*(\d+)` pattern, itself `none`
when the text does not parse), and the matches of the broadened
`.tm:has(input[type=radio])` selector used by the retry pass. -/
structure BlockEnv where
  questions : List Question
  commentChoiceIdx : Nat
  progressParsed : Option (Option (Nat × Nat))
  retryQuestions : List Question
  deriving DecidableEq, Repr

/-- The all-empty active-block snapshot, used as the out-of-range default
for indexed block lookups. -/
def defaultBlock : BlockEnv :=
  { questions := [], commentChoiceIdx := 0, progressParsed := none, retryQuestions := [] }

/-- One `_prefill_active_block` call (assistant.py lines 494-552): the first
`_click_questions` pass over the configured selector's matches, the comment
filled with the randomly chosen template, and the optional broadened retry
pass, run exactly when a progress counter parses as done < total and the
broadened selector has matches. -/
def prefillActiveBlock (cfg : AppConfig) (blk : BlockEnv) :
    List FillAction × String × Option (List FillAction) :=
  let firstPass := (clickQuestions cfg.ratingText blk.questions).1
  let comment := chooseComment cfg.commentTemplates blk.commentChoiceIdx
  let retry :=
    match blk.progressParsed with
    | some (some (done, total)) =>
      if done < total ∧ blk.retryQuestions ≠ [] then
        some (clickQuestions cfg.ratingText blk.retryQuestions).1
      else none
    | _ => none
  (firstPass, comment, retry)

/-- One observable action of the `assist_page` flow, in program order.
`waitForTable`/`waitForModal` are `_wait_for_table`/`_wait_for_modal` with
their timeouts; `clickTab gh` is `_safe_click` on the explicit teacher tab
located by its `data-gh` identifier; `waitTabActive gh` is the
`expect(... .jsxx.active[data-gh=gh]).to_be_visible` wait; `waitBlockVisible
gh` is the best-effort wait for the tab's content block
`.pjst .jslb.active[data-gh=gh]` to become visible; `prefillActive` is one
`_prefill_active_block` call with its computed behavior;
`clickHeuristicTab`/`waitHeuristicTabActive` are the handle-based variants
of the heuristic branch; `confirmDialogLoop` is the bounded success-popup
handling loop after submit; `expectModalHidden` is the
`expect(modal).to_be_hidden` wait with its timeout; `waitModalClosedCall`
would be an invocation of the configurable `_wait_modal_closed` (the flow
never emits it). -/
inductive FlowEvent where
  | waitForTable (timeoutMs : Nat)
  | clickPendingBtn
  | waitForModal (timeoutMs : Nat)
  | clickTab (gh : String)
  | waitTabActive (gh : String) (timeoutMs : Nat)
  | waitBlockVisible (gh : String) (timeoutMs : Nat)
  | pauseMs (ms : Nat)
  | prefillActive (p : List FillAction × String × Option (List FillAction))
  | clickHeuristicTab (idx : Nat)
  | waitHeuristicTabActive (idx : Nat) (timeoutMs : Nat)
  | randDelayEvt (lo hi : Int)
  | clickSubmit (selector : String)
  | confirmDialogLoop (ceilingMs : Nat)
  | expectModalHidden (timeoutMs : Nat)
  | waitModalClosedCall (maxWaitS : Int)
  deriving DecidableEq, Repr

/-- The explicit-tab loop of `assist_page` (assistant.py lines 589-605): for
each `(data-gh, name)` of `tab_info`, skip falsy identifiers
(`if not gh: continue`), else click the tab, wait for its active-state
attribute, best-effort wait for its content block, pause 50ms, and prefill
the now-active block. `k` counts the prefills already performed and indexes
the consumed block snapshots. -/
def explicitTabEvents (cfg : AppConfig) (blocks : List BlockEnv) :
    List (Option String × String) → Nat → List FlowEvent
  | [], _ => []
  | (gh?, _) :: rest, k =>
    match gh? with
    | none => explicitTabEvents cfg blocks rest k
    | some gh =>
      if gh = "" then explicitTabEvents cfg blocks rest k
      else
        FlowEvent.clickTab gh :: .waitTabActive gh 5000 :: .waitBlockVisible gh 5000 ::
          .pauseMs 50 :: .prefillActive (prefillActiveBlock cfg (blocks.getD k defaultBlock)) ::
          explicitTabEvents cfg blocks rest (k + 1)

/-- The heuristic-tab loop (assistant.py lines 653-660), entered when more
than one heuristic tab exists: per tab, click the handle, wait up to 2s for
an active-looking state, pause 50ms, insert a randomized delay, prefill. -/
def heuristicTabEvents (cfg : AppConfig) (blocks : List BlockEnv) :
    List (String × Nat) → Nat → List FlowEvent
  | [], _ => []
  | (_, idx) :: rest, k =>
    FlowEvent.clickHeuristicTab idx :: .waitHeuristicTabActive idx 2000 :: .pauseMs 50 ::
      .randDelayEvt cfg.delays.min cfg.delays.max ::
      .prefillActive (prefillActiveBlock cfg (blocks.getD k defaultBlock)) ::
      heuristicTabEvents cfg blocks rest (k + 1)

/-- The data one pending-item iteration of `assist_page` consumes: the
`tab_info` pairs when explicit teacher tabs exist (`[]` means
`explicit_tabs.count() == 0`), the `_collect_teacher_tabs` result used
otherwise, and the successive active-block snapshots, one per prefill. -/
structure ItemEnv where
  tabInfo : List (Option String × String)
  heuristicTabs : List (String × Nat)
  blocks : List BlockEnv
  deriving DecidableEq, Repr

/-- One iteration of the `assist_page` pending-item loop (assistant.py lines
562-706): click the first pending 评价 button, wait for the modal, process
teacher tabs (explicit by identifier; else heuristic, iterated only when
more than one exists, else a single direct prefill), then click submit, run
the bounded confirmation loop, require the modal hidden within a fixed 10s,
and insert a randomized delay. -/
def itemEvents (cfg : AppConfig) (it : ItemEnv) : List FlowEvent :=
  [FlowEvent.clickPendingBtn, .waitForModal 30000]
  ++ (if it.tabInfo ≠ [] then
        explicitTabEvents cfg it.blocks it.tabInfo 0
      else if 1 < it.heuristicTabs.length then
        heuristicTabEvents cfg it.blocks it.heuristicTabs 0
      else [FlowEvent.prefillActive (prefillActiveBlock cfg (it.blocks.getD 0 defaultBlock))])
  ++ [FlowEvent.clickSubmit cfg.submitButtonSel, .confirmDialogLoop 5000,
      .expectModalHidden 10000, .randDelayEvt cfg.delays.min cfg.delays.max]

/-- The full `assist_page` trace: one `_wait_for_table` and then the item
loop, one `ItemEnv` per iteration; the loop exits when the pending-button
count reaches zero, i.e. when the item list is exhausted. -/
def assistPageEvents (cfg : AppConfig) (items : List ItemEnv) : List FlowEvent :=
  FlowEvent.waitForTable 30000 :: items.flatMap (fun it => itemEvents cfg it)

/-- Stepping a list index past five cons cells. -/
theorem getElem?_cons_five {α : Type} (a b c d e : α) (l : List α) (m : Nat) :
    (a :: b :: c :: d :: e :: l)[m + 5]? = l[m]? := by
  simp [List.getElem?_cons_succ]

/-- C8: when explicit teacher tabs exist, the flow iterates them by
identifier: every tab click is followed, in order, by the wait for the tab's
active-state attribute, the wait for its corresponding content block to
become visible, the 50ms pause, and only then the block fill; conversely,
every block fill is immediately preceded by exactly that click-and-wait
sequence for a single tab identifier. -/
theorem assistPage_explicit_tab_order (cfg : AppConfig) (blocks : List BlockEnv) :
    (∀ (tabs : List (Option String × String)) (k i : Nat) (gh : String),
      (explicitTabEvents cfg blocks tabs k)[i]? = some (.clickTab gh) →
        (explicitTabEvents cfg blocks tabs k)[i + 1]? = some (.waitTabActive gh 5000)
        ∧ (explicitTabEvents cfg blocks tabs k)[i + 2]? = some (.waitBlockVisible gh 5000)
        ∧ (explicitTabEvents cfg blocks tabs k)[i + 3]? = some (.pauseMs 50)
        ∧ ∃ p, (explicitTabEvents cfg blocks tabs k)[i + 4]? = some (.prefillActive p))
    ∧ (∀ (tabs : List (Option String × String)) (k i : Nat)
        (p : List FillAction × String × Option (List FillAction)),
      (explicitTabEvents cfg blocks tabs k)[i]? = some (.prefillActive p) →
        4 ≤ i ∧ ∃ gh : String,
          (explicitTabEvents cfg blocks tabs k)[i - 4]? = some (.clickTab gh)
          ∧ (explicitTabEvents cfg blocks tabs k)[i - 3]? = some (.waitTabActive gh 5000)
          ∧ (explicitTabEvents cfg blocks tabs k)[i - 2]? = some (.waitBlockVisible gh 5000)
          ∧ (explicitTabEvents cfg blocks tabs k)[i - 1]? = some (.pauseMs 50)) := by
  constructor
  · intro tabs
    induction tabs with
    | nil =>
      intro k i gh h
      simp [explicitTabEvents] at h
    | cons hd rest ih =>
      intro k i gh h
      obtain ⟨og, name⟩ := hd
      cases og with
      | none =>
        simp only [explicitTabEvents] at h ⊢
        exact ih k i gh h
      | some g =>
        by_cases hg : g = ""
        · simp only [explicitTabEvents, if_pos hg] at h ⊢
          exact ih k i gh h
        · simp only [explicitTabEvents, if_neg hg] at h ⊢
          rcases i with _ | _ | _ | _ | _ | m
          · simp only [List.getElem?_cons_zero, Option.some.injEq] at h
            obtain rfl : g = gh := FlowEvent.clickTab.inj h
            exact ⟨rfl, rfl, rfl, prefillActiveBlock cfg (blocks.getD k defaultBlock), by simp⟩
          · simp at h
          · simp at h
          · simp at h
          · simp at h
          · rw [getElem?_cons_five] at h
            obtain ⟨c1, c2, c3, c4⟩ := ih (k + 1) m gh h
            refine ⟨?_, ?_, ?_, ?_⟩
            · have e1 : m + 5 + 1 = (m + 1) + 5 := by omega
              rw [e1, getElem?_cons_five]
              exact c1
            · have e2 : m + 5 + 2 = (m + 2) + 5 := by omega
              rw [e2, getElem?_cons_five]
              exact c2
            · have e3 : m + 5 + 3 = (m + 3) + 5 := by omega
              rw [e3, getElem?_cons_five]
              exact c3
            · obtain ⟨p, hp⟩ := c4
              have e4 : m + 5 + 4 = (m + 4) + 5 := by omega
              rw [e4, getElem?_cons_five]
              exact ⟨p, hp⟩
  · intro tabs
    induction tabs with
    | nil =>
      intro k i p h
      simp [explicitTabEvents] at h
    | cons hd rest ih =>
      intro k i p h
      obtain ⟨og, name⟩ := hd
      cases og with
      | none =>
        simp only [explicitTabEvents] at h ⊢
        exact ih k i p h
      | some g =>
        by_cases hg : g = ""
        · simp only [explicitTabEvents, if_pos hg] at h ⊢
          exact ih k i p h
        · simp only [explicitTabEvents, if_neg hg] at h ⊢
          rcases i with _ | _ | _ | _ | _ | m
          · simp at h
          · simp at h
          · simp at h
          · simp at h
          · exact ⟨by omega, g, rfl, rfl, rfl, rfl⟩
          · rw [getElem?_cons_five] at h
            obtain ⟨hm, gh, c1, c2, c3, c4⟩ := ih (k + 1) m p h
            refine ⟨by omega, gh, ?_, ?_, ?_, ?_⟩
            · have e1 : m + 5 - 4 = (m - 4) + 5 := by omega
              rw [e1, getElem?_cons_five]
              exact c1
            · have e2 : m + 5 - 3 = (m - 3) + 5 := by omega
              rw [e2, getElem?_cons_five]
              exact c2
            · have e3 : m + 5 - 2 = (m - 2) + 5 := by omega
              rw [e3, getElem?_cons_five]
              exact c3
            · have e4 : m + 5 - 1 = (m - 1) + 5 := by omega
              rw [e4, getElem?_cons_five]
              exact c4

/-- Witness for C8: on a two-entry tab list (one identifier-bearing tab, one
identifier-less entry that is skipped), the event after the tab click is the
active-state wait for the same identifier. -/
theorem assistPage_explicit_tab_order_witness :
    (explicitTabEvents
        { ratingText := "很满意", commentTemplates := ["老师讲课认真负责"],
          delays := { min := 100, max := 350 }, manualSubmitMaxWaitS := 0,
          submitButtonSel := ".modal-footer button.sure" }
        [] [(some "T1", "甲"), (none, "乙")] 0)[0 + 1]?
      = some (.waitTabActive "T1" 5000) :=
  ((assistPage_explicit_tab_order
      { ratingText := "很满意", commentTemplates := ["老师讲课认真负责"],
        delays := { min := 100, max := 350 }, manualSubmitMaxWaitS := 0,
        submitButtonSel := ".modal-footer button.sure" } []).1
    [(some "T1", "甲"), (none, "乙")] 0 0 "T1" (by simp [explicitTabEvents])).1

/-- The explicit-tab trace ignores the manual-submit wait field. -/
theorem explicitTabEvents_manualWait (cfg : AppConfig) (w : Int) (blocks : List BlockEnv) :
    ∀ (tabs : List (Option String × String)) (k : Nat),
      explicitTabEvents { cfg with manualSubmitMaxWaitS := w } blocks tabs k
        = explicitTabEvents cfg blocks tabs k := by
  intro tabs
  induction tabs with
  | nil => intro k; rfl
  | cons hd rest ih =>
    intro k
    obtain ⟨og, name⟩ := hd
    cases og with
    | none =>
      simp only [explicitTabEvents]
      exact ih k
    | some g =>
      by_cases hg : g = ""
      · simp only [explicitTabEvents, if_pos hg]
        exact ih k
      · simp only [explicitTabEvents, if_neg hg]
        rw [ih (k + 1)]
        rfl

/-- The heuristic-tab trace ignores the manual-submit wait field. -/
theorem heuristicTabEvents_manualWait (cfg : AppConfig) (w : Int) (blocks : List BlockEnv) :
    ∀ (tabs : List (String × Nat)) (k : Nat),
      heuristicTabEvents { cfg with manualSubmitMaxWaitS := w } blocks tabs k
        = heuristicTabEvents cfg blocks tabs k := by
  intro tabs
  induction tabs with
  | nil => intro k; rfl
  | cons hd rest ih =>
    intro k
    obtain ⟨name, idx⟩ := hd
    simp only [heuristicTabEvents]
    rw [ih (k + 1)]
    rfl

/-- One prefill call ignores the manual-submit wait field. -/
theorem prefillActiveBlock_manualWait (cfg : AppConfig) (w : Int) (blk : BlockEnv) :
    prefillActiveBlock { cfg with manualSubmitMaxWaitS := w } blk
      = prefillActiveBlock cfg blk := rfl

/-- The per-item trace ignores the manual-submit wait field. -/
theorem itemEvents_manualWait (cfg : AppConfig) (w : Int) (it : ItemEnv) :
    itemEvents { cfg with manualSubmitMaxWaitS := w } it = itemEvents cfg it := by
  simp only [itemEvents]
  rw [explicitTabEvents_manualWait, heuristicTabEvents_manualWait,
    prefillActiveBlock_manualWait]

/-- The full page trace ignores the manual-submit wait field. -/
theorem assistPageEvents_manualWait (cfg : AppConfig) (w : Int) (items : List ItemEnv) :
    assistPageEvents { cfg with manualSubmitMaxWaitS := w } items
      = assistPageEvents cfg items := by
  simp only [assistPageEvents]
  congr 1
  induction items with
  | nil => rfl
  | cons it rest ih => simp [itemEvents_manualWait, ih]

/-- The explicit-tab loop emits no modal-hidden wait and no
`_wait_modal_closed` call. -/
theorem explicitTabEvents_members (cfg : AppConfig) (blocks : List BlockEnv) :
    ∀ (tabs : List (Option String × String)) (k : Nat) (t : Nat) (w : Int),
      FlowEvent.expectModalHidden t ∉ explicitTabEvents cfg blocks tabs k
      ∧ FlowEvent.waitModalClosedCall w ∉ explicitTabEvents cfg blocks tabs k := by
  intro tabs
  induction tabs with
  | nil => intro k t w; simp [explicitTabEvents]
  | cons hd rest ih =>
    intro k t w
    obtain ⟨og, name⟩ := hd
    cases og with
    | none => simpa [explicitTabEvents] using ih k t w
    | some g =>
      by_cases hg : g = ""
      · simpa [explicitTabEvents, hg] using ih k t w
      · have hr := ih (k + 1) t w
        constructor
        · simp [explicitTabEvents, hg, hr.1]
        · simp [explicitTabEvents, hg, hr.2]

/-- The heuristic-tab loop emits no modal-hidden wait and no
`_wait_modal_closed` call. -/
theorem heuristicTabEvents_members (cfg : AppConfig) (blocks : List BlockEnv) :
    ∀ (tabs : List (String × Nat)) (k : Nat) (t : Nat) (w : Int),
      FlowEvent.expectModalHidden t ∉ heuristicTabEvents cfg blocks tabs k
      ∧ FlowEvent.waitModalClosedCall w ∉ heuristicTabEvents cfg blocks tabs k := by
  intro tabs
  induction tabs with
  | nil => intro k t w; simp [heuristicTabEvents]
  | cons hd rest ih =>
    intro k t w
    obtain ⟨name, idx⟩ := hd
    have hr := ih (k + 1) t w
    constructor
    · simp [heuristicTabEvents, hr.1]
    · simp [heuristicTabEvents, hr.2]

/-- The tab-processing section of one item emits no modal-hidden wait and no
`_wait_modal_closed` call, whichever branch runs. -/
theorem itemMid_members (cfg : AppConfig) (it : ItemEnv) (t : Nat) (w : Int) :
    FlowEvent.expectModalHidden t ∉
      (if it.tabInfo ≠ [] then explicitTabEvents cfg it.blocks it.tabInfo 0
       else if 1 < it.heuristicTabs.length then
         heuristicTabEvents cfg it.blocks it.heuristicTabs 0
       else [FlowEvent.prefillActive (prefillActiveBlock cfg (it.blocks.getD 0 defaultBlock))])
    ∧ FlowEvent.waitModalClosedCall w ∉
      (if it.tabInfo ≠ [] then explicitTabEvents cfg it.blocks it.tabInfo 0
       else if 1 < it.heuristicTabs.length then
         heuristicTabEvents cfg it.blocks it.heuristicTabs 0
       else [FlowEvent.prefillActive (prefillActiveBlock cfg (it.blocks.getD 0 defaultBlock))]) := by
  by_cases h1 : it.tabInfo ≠ []
  · rw [if_pos h1]
    exact ⟨(explicitTabEvents_members cfg it.blocks it.tabInfo 0 t w).1,
      (explicitTabEvents_members cfg it.blocks it.tabInfo 0 t w).2⟩
  · rw [if_neg h1]
    by_cases h2 : 1 < it.heuristicTabs.length
    · rw [if_pos h2]
      exact ⟨(heuristicTabEvents_members cfg it.blocks it.heuristicTabs 0 t w).1,
        (heuristicTabEvents_members cfg it.blocks it.heuristicTabs 0 t w).2⟩
    · rw [if_neg h2]
      constructor <;> simp

/-- In one item's trace the only modal-hidden wait carries the fixed 10000ms
timeout, and `_wait_modal_closed` is never called. -/
theorem itemEvents_members (cfg : AppConfig) (it : ItemEnv) :
    (∀ t : Nat, FlowEvent.expectModalHidden t ∈ itemEvents cfg it → t = 10000)
    ∧ (∀ w : Int, FlowEvent.waitModalClosedCall w ∉ itemEvents cfg it) := by
  constructor
  · intro t hmem
    rw [itemEvents] at hmem
    rcases List.mem_append.mp hmem with hleft | htail
    · rcases List.mem_append.mp hleft with hhead | hmid
      · simp at hhead
      · exact absurd hmid (itemMid_members cfg it t 0).1
    · simpa using htail
  · intro w hmem
    rw [itemEvents] at hmem
    rcases List.mem_append.mp hmem with hleft | htail
    · rcases List.mem_append.mp hleft with hhead | hmid
      · simp at hhead
      · exact absurd hmid (itemMid_members cfg it 0 w).2
    · simp at htail

/-- C10: the evaluation flow is independent of the configured
`manual_submit_max_wait_s` value — two configurations differing only in that
field produce identical `assist_page` behavior; the flow never invokes the
configurable modal-closed wait, and its post-submit wait for the modal to
become hidden is always bounded at a fixed 10 seconds. -/
theorem assistPage_manualWait_independence (cfg : AppConfig) (items : List ItemEnv)
    (w1 w2 : Int) :
    assistPageEvents { cfg with manualSubmitMaxWaitS := w1 } items
      = assistPageEvents { cfg with manualSubmitMaxWaitS := w2 } items
    ∧ (∀ t : Nat, FlowEvent.expectModalHidden t ∈ assistPageEvents cfg items → t = 10000)
    ∧ (∀ w : Int, FlowEvent.waitModalClosedCall w ∉ assistPageEvents cfg items) := by
  refine ⟨?_, ?_, ?_⟩
  · rw [assistPageEvents_manualWait cfg w1 items, assistPageEvents_manualWait cfg w2 items]
  · intro t hmem
    simp only [assistPageEvents, List.mem_cons, List.mem_flatMap] at hmem
    rcases hmem with h | ⟨it, -, h⟩
    · exact absurd h (by simp)
    · exact (itemEvents_members cfg it).1 t h
  · intro w hmem
    simp only [assistPageEvents, List.mem_cons, List.mem_flatMap] at hmem
    rcases hmem with h | ⟨it, -, h⟩
    · exact absurd h (by simp)
    · exact (itemEvents_members cfg it).2 w h

/-- Witness for C10: the traces for manual-submit waits 0 and 3600 coincide
on a concrete one-item page, and no `_wait_modal_closed` call appears. -/
theorem assistPage_manualWait_independence_witness :
    assistPageEvents
      { ratingText := "很满意", commentTemplates := ["老师讲课认真负责"],
        delays := { min := 100, max := 350 }, manualSubmitMaxWaitS := 0,
        submitButtonSel := ".modal-footer button.sure" }
      [{ tabInfo := [(some "T1", "甲")], heuristicTabs := [], blocks := [] }]
      = assistPageEvents
      { ratingText := "很满意", commentTemplates := ["老师讲课认真负责"],
        delays := { min := 100, max := 350 }, manualSubmitMaxWaitS := 3600,
        submitButtonSel := ".modal-footer button.sure" }
      [{ tabInfo := [(some "T1", "甲")], heuristicTabs := [], blocks := [] }]
    ∧ FlowEvent.waitModalClosedCall 3600 ∉ assistPageEvents
      { ratingText := "很满意", commentTemplates := ["老师讲课认真负责"],
        delays := { min := 100, max := 350 }, manualSubmitMaxWaitS := 0,
        submitButtonSel := ".modal-footer button.sure" }
      [{ tabInfo := [(some "T1", "甲")], heuristicTabs := [], blocks := [] }] := by
  constructor
  · exact (assistPage_manualWait_independence
      { ratingText := "很满意", commentTemplates := ["老师讲课认真负责"],
        delays := { min := 100, max := 350 }, manualSubmitMaxWaitS := 5,
        submitButtonSel := ".modal-footer button.sure" }
      [{ tabInfo := [(some "T1", "甲")], heuristicTabs := [], blocks := [] }] 0 3600).1
  · exact (assistPage_manualWait_independence
      { ratingText := "很满意", commentTemplates := ["老师讲课认真负责"],
        delays := { min := 100, max := 350 }, manualSubmitMaxWaitS := 0,
        submitButtonSel := ".modal-footer button.sure" }
      [{ tabInfo := [(some "T1", "甲")], heuristicTabs := [], blocks := [] }] 0 0).2.2 3600

end PjAssistant
